import Mathlib

/-!
# Verification of the `bitcoincore_rpc_json` schema layer

This development embeds the serde data model of `src/json/src/lib.rs`
(the typed JSON schema catalogue for the Bitcoin Core JSON-RPC API) in
Lean and proves the specified codec properties against it.

Modelling decisions, shared by the whole file:

* JSON values are the inductive `Json` below.  JSON numbers are carried
  as their decimal text (the `num` constructor holds a `String`): the
  machine-float parse/print steps performed by `serde_json` are modelled
  as the identity on this text, which is exact on every number the
  adapters under verification can produce or are specified to consume.
* Byte strings (`Vec<u8>`) are `List Nat` whose elements denote bytes;
  the byte-range reduction `% 256` is written explicitly where the Rust
  code relies on the `u8` type.
* Rust `Result`/serde errors are `Except String`; the exact error text of
  library type errors is abbreviated (e.g. "expected a string") except
  where the source formats a message itself, which is kept verbatim.
* Adapters that the source delegates to external crates (the hex codec
  `FromHex`/`ToHex`, the BTC-amount serde module and the big-integer
  serializer) are modelled from the specification and are marked
  `Modelled from the spec:` in their doc comments.
-/

/-- JSON values; numbers are carried as their decimal text. -/
inductive Json where
  | null : Json
  | bool : Bool → Json
  | num : String → Json
  | str : String → Json
  | arr : List Json → Json
  | obj : List (String × Json) → Json

/-- Key lookup in the field list of a JSON object (first match wins),
modelling how a serde map deserializer dispatches on keys. -/
def lookupField : List (String × Json) → String → Option Json
  | [], _ => none
  | (k, v) :: rest, key => if key = k then some v else lookupField rest key

/-- Lookup of a key in a JSON object value. -/
def Json.lookupKey (j : Json) (key : String) : Option Json :=
  match j with
  | Json.obj fields => lookupField fields key
  | _ => none

/-- The keys of a JSON object value, in emission order. -/
def Json.objKeys (j : Json) : List String :=
  match j with
  | Json.obj fields => fields.map Prod.fst
  | _ => []

/-- Modelling of `String::deserialize` of `serde_json`: only a JSON
string succeeds; in particular JSON `null` is a type error. -/
def deserializeString (v : Json) : Except String String :=
  match v with
  | Json.str s => Except.ok s
  | _ => Except.error "expected a string"

/-- Numeric value of one hex digit given as its character code, case
insensitive (`0`-`9`, `a`-`f`, `A`-`F`). -/
def hexDigitValNat (n : Nat) : Option Nat :=
  if 48 ≤ n ∧ n ≤ 57 then some (n - 48)
  else if 97 ≤ n ∧ n ≤ 102 then some (n - 87)
  else if 65 ≤ n ∧ n ≤ 70 then some (n - 55)
  else none

/-- Numeric value of one hex digit, case insensitive, as matched by the
hex decoder (`0`-`9`, `a`-`f`, `A`-`F`). -/
def hexDigitVal (c : Char) : Option Nat :=
  hexDigitValNat c.toNat

/-- Decode a list of hex digits, two characters per byte (high nibble
first); odd length or a non-hex character fails. -/
def hexPairsToBytes : List Char → Option (List Nat)
  | [] => some []
  | [_] => none
  | c1 :: c2 :: rest =>
    match hexDigitVal c1, hexDigitVal c2, hexPairsToBytes rest with
    | some h, some l, some tail => some ((16 * h + l) :: tail)
    | _, _, _ => none

/-- Modelled from the spec: the external `FromHex::from_hex` used by
`serde_hex` (spec 4.1.1): an even-length, case-insensitive hex string
decodes to its byte sequence, anything else fails with "invalid hex". -/
def from_hex (s : String) : Except String (List Nat) :=
  match hexPairsToBytes s.data with
  | some bs => Except.ok bs
  | none => Except.error "invalid hex"

/-- The sixteen lowercase hex digit characters. -/
def hexDigitChar (d : Nat) : Char :=
  match d with
  | 0 => '0' | 1 => '1' | 2 => '2' | 3 => '3'
  | 4 => '4' | 5 => '5' | 6 => '6' | 7 => '7'
  | 8 => '8' | 9 => '9' | 10 => 'a' | 11 => 'b'
  | 12 => 'c' | 13 => 'd' | 14 => 'e' | _ => 'f'

/-- Two lowercase hex characters of one byte (the `u8` range is made
explicit by the leading `% 256`). -/
def byteToHex (b : Nat) : List Char :=
  [hexDigitChar (b % 256 / 16), hexDigitChar (b % 16)]

/-- Modelled from the spec: the external `ToHex::to_hex` used by
`serde_hex` (spec 4.1.1): encode a byte sequence as lowercase hex. -/
def to_hex (bs : List Nat) : String :=
  String.mk (bs.map byteToHex).flatten

/-- `serde_hex::serialize` from the source: emit the bytes as a hex
string. -/
def serde_hex.serialize (b : List Nat) : Json :=
  Json.str (to_hex b)

/-- `serde_hex::deserialize` from the source: deserialize a string, then
hex-decode it. -/
def serde_hex.deserialize (v : Json) : Except String (List Nat) :=
  match deserializeString v with
  | Except.ok s => from_hex s
  | Except.error e => Except.error e

/-- `serde_hex::opt::serialize` from the source: `None` is serialized
with `serialize_none` (JSON `null` under `serde_json`), `Some` as the
hex string. -/
def serde_hex.opt.serialize (b : Option (List Nat)) : Json :=
  match b with
  | none => Json.null
  | some bs => Json.str (to_hex bs)

/-- `serde_hex::opt::deserialize` from the source: deserialize a string
(a type error on any non-string value, including `null`), hex-decode it
and wrap the result in `Some`. -/
def serde_hex.opt.deserialize (v : Json) : Except String (Option (List Nat)) :=
  match deserializeString v with
  | Except.ok s =>
    match from_hex s with
    | Except.ok bs => Except.ok (some bs)
    | Except.error e => Except.error e
  | Except.error e => Except.error e

/-- Decoding of a struct field declared
`#[serde(default, with = "::serde_hex::opt")] pub f: Option<Vec<u8>>`
(e.g. `GetBlockResult::version_hex`): a missing key takes the `default`
(`None`); a present key goes through `serde_hex::opt::deserialize`. -/
def decodeOptHexField (fields : List (String × Json)) (key : String) :
    Except String (Option (List Nat)) :=
  match lookupField fields key with
  | none => Except.ok none
  | some v => serde_hex.opt.deserialize v

/-- Lowercasing of one ASCII character (the "lowercase form" of a hex
string compares `A`-`Z` down to `a`-`z` and keeps everything else). -/
def lowerChar (c : Char) : Char :=
  if 65 ≤ c.toNat ∧ c.toNat ≤ 90 then Char.ofNat (c.toNat + 32) else c

/-- Lowercase form of a string. -/
def lowerStr (s : String) : String :=
  String.mk (s.data.map lowerChar)

/-- A character is a lowercase hex digit. -/
def IsLowerHexChar (c : Char) : Prop :=
  (48 ≤ c.toNat ∧ c.toNat ≤ 57) ∨ (97 ≤ c.toNat ∧ c.toNat ≤ 102)

/-- Numeric value of one decimal digit character. -/
def digitVal (c : Char) : Option Nat :=
  if 48 ≤ c.toNat ∧ c.toNat ≤ 57 then some (c.toNat - 48) else none

/-- Accumulating decimal parser over a digit list (most significant digit
first); any non-digit character fails. -/
def digitsValAux : Nat → List Char → Option Nat
  | acc, [] => some acc
  | acc, c :: cs =>
    match digitVal c with
    | some d => digitsValAux (acc * 10 + d) cs
    | none => none

/-- Value of a non-empty decimal digit list, as parsed by the
big-integer / machine-integer `from_str` parsers: empty input or a
non-digit character fails. -/
def digitsVal (cs : List Char) : Option Nat :=
  match cs with
  | [] => none
  | _ => digitsValAux 0 cs

/-- The ten decimal digit characters. -/
def digitChar (d : Nat) : Char :=
  match d with
  | 0 => '0' | 1 => '1' | 2 => '2' | 3 => '3' | 4 => '4'
  | 5 => '5' | 6 => '6' | 7 => '7' | 8 => '8' | _ => '9'

/-- Decimal rendering of a natural number, most significant digit
first (the rendering used by the integer `to_string`/`Display`
implementations: no sign, no exponent, no decimal point). -/
def natToDecList (n : Nat) : List Char :=
  if _h : n < 10 then [digitChar n]
  else natToDecList (n / 10) ++ [digitChar (n % 10)]
termination_by n
decreasing_by exact Nat.div_lt_self (Nat.lt_of_lt_of_le (by norm_num) (Nat.le_of_not_lt _h)) (by norm_num)

/-- Decimal rendering of a natural number as a string. -/
def natToDec (n : Nat) : String :=
  String.mk (natToDecList n)

/-- Split a character list at the first `'.'`: the prefix before it and,
when a dot exists, the remainder after it.  This models Rust's
`s.split('.')`, whose first element is the prefix before the first dot
(the whole string when there is no dot, also when the string is empty:
`"".split('.').nth(0)` is `Some("")`). -/
def splitOnDot : List Char → List Char × Option (List Char)
  | [] => ([], none)
  | c :: cs =>
    if c = '.' then ([], some cs)
    else
      let r := splitOnDot cs
      (c :: r.1, r.2)

/-- `deserialize_difficulty` from the source, on the decimal text of the
JSON number: take the part of the string before the first `'.'` and
parse it as a big integer; on a parse failure report
`error parsing difficulty: <string>`.  (The `None` arm of the source's
`match s.split('.').nth(0)` is unreachable, since `split` always yields
a first element; its error message is the same one.) -/
def deserialize_difficulty (s : String) : Except String Nat :=
  let real := (splitOnDot s.data).1
  match digitsVal real with
  | some n => Except.ok n
  | none => Except.error ("error parsing difficulty: " ++ s)

/-- Round `q + r / d` (with `r < d`) to the nearest integer, ties to
even. -/
def roundHalfEven (q r d : Nat) : Nat :=
  if 2 * r < d then q
  else if d < 2 * r then q + 1
  else if q % 2 = 0 then q else q + 1

/-- Left-pad a digit list with `'0'` to the given width. -/
def padZeros (w : Nat) (cs : List Char) : List Char :=
  List.replicate (w - cs.length) '0' ++ cs

/-- Strip a leading `'-'` sign, reporting whether one was present. -/
def stripSign (cs : List Char) : Bool × List Char :=
  match cs with
  | c :: rest => if c = '-' then (true, rest) else (false, cs)
  | [] => (false, [])

/-- Satoshi count of a parsed non-negative decimal: integer part, and
optionally the digit list after the decimal point.  The value is
multiplied by `10^8`; a fractional part longer than 8 digits is rounded
half-to-even at the nearest satoshi. -/
def btcSatsOfParts (intPart : Nat) : Option (List Char) → Except String Nat
  | none => Except.ok (intPart * 100000000)
  | some fracCs =>
    match digitsVal fracCs with
    | none => Except.error "invalid amount"
    | some frac =>
      if fracCs.length ≤ 8 then
        Except.ok (intPart * 100000000 + frac * 10 ^ (8 - fracCs.length))
      else
        Except.ok (roundHalfEven
          (intPart * 100000000 + frac / 10 ^ (fracCs.length - 8))
          (frac % 10 ^ (fracCs.length - 8))
          (10 ^ (fracCs.length - 8)))

/-- Check that a satoshi count fits the signed 64-bit amount type
(`-2^63 ≤ v < 2^63`). -/
def btcRangeCheck (v : Int) : Except String Int :=
  if v < -9223372036854775808 ∨ 9223372036854775808 ≤ v then
    Except.error "amount out of range"
  else Except.ok v

/-- Apply the sign and check that the satoshi count fits the signed
64-bit amount type. -/
def btcFinish (neg : Bool) (sats : Nat) : Except String Int :=
  btcRangeCheck (match neg with
    | true => -(sats : Int)
    | false => (sats : Int))

/-- Modelled from the spec: the decode half of the Bitcoin library's
BTC-as-float amount adapter (spec 4.1.4), on the decimal text of the
JSON number: parse an optionally signed decimal number, convert to
satoshi by multiplying by `10^8` and rounding half-to-even at the
nearest satoshi, then check that the result fits the (signed 64-bit)
amount type. -/
def decodeBtc (s : String) : Except String Int :=
  match digitsVal (splitOnDot (stripSign s.data).2).1 with
  | none => Except.error "invalid amount"
  | some intPart =>
    match btcSatsOfParts intPart (splitOnDot (stripSign s.data).2).2 with
    | Except.error e => Except.error e
    | Except.ok sats => btcFinish (stripSign s.data).1 sats

/-- Modelled from the spec: the encode half of the BTC-as-float amount
adapter (spec 4.1.4): emit the satoshi count as a decimal BTC number
(8-decimal fixed point). -/
def encodeBtc (s : Int) : String :=
  let a := s.natAbs
  let body := natToDecList (a / 100000000) ++ '.' :: padZeros 8 (natToDecList (a % 100000000))
  String.mk (if s < 0 then '-' :: body else body)

/-- The BTC-amount field adapter, encode side: the amount appears as a
JSON number. -/
def as_btc.serialize (s : Int) : Json :=
  Json.num (encodeBtc s)

/-- The BTC-amount field adapter, decode side: the field must be a JSON
number, converted to satoshi by `decodeBtc`. -/
def as_btc.deserialize (v : Json) : Except String Int :=
  match v with
  | Json.num s => decodeBtc s
  | _ => Except.error "expected a number"

/-- The optional-amount adapter, encode side, as referenced by
`#[serde(default, with = "bitcoin::util::amount::serde::as_btc::opt")]`
fields without `skip_serializing_if` (e.g. the three amount options of
`ListUnspentQueryOptions`): `None` is serialized with `serialize_none`
(JSON `null`), `Some` as the BTC number. -/
def as_btc.opt.serialize (a : Option Int) : Json :=
  match a with
  | none => Json.null
  | some v => Json.num (encodeBtc v)

/-- `deserialize_hex_array_opt` from the source: deserialize a
`Vec<String>` (the value must be a JSON array of strings), hex-decode
every element, and wrap the result in `Some`. -/
def deserialize_hex_array_opt (v : Json) : Except String (Option (List (List Nat))) :=
  match v with
  | Json.arr xs =>
    match xs.mapM deserializeString with
    | Except.error e => Except.error e
    | Except.ok strs =>
      match strs.mapM from_hex with
      | Except.error e => Except.error e
      | Except.ok res => Except.ok (some res)
  | _ => Except.error "expected an array"

/-- The opaque `Script` domain type: a byte sequence
(`Script::from(Vec<u8>)` wraps the bytes unchanged). -/
structure Script where
  bytes : List Nat
deriving DecidableEq

/-- `ScriptPubkeyType` from the source (wire tags lowercased). -/
inductive ScriptPubkeyType where
  | Nonstandard | Pubkey | PubkeyHash | ScriptHash | MultiSig
  | NullData | Witness_v0_KeyHash | Witness_v0_ScriptHash | Witness_Unknown
deriving DecidableEq

/-- `GetRawTransactionResultVinScriptSig` from the source: `asm` string
and hex-decoded `hex` bytes. -/
structure GetRawTransactionResultVinScriptSig where
  asm : String
  hex : List Nat
deriving DecidableEq

/-- `GetRawTransactionResultVinScriptSig::script` from the source:
`Ok(Script::from(self.hex.clone()))`. -/
def GetRawTransactionResultVinScriptSig.script
    (s : GetRawTransactionResultVinScriptSig) : Except String Script :=
  Except.ok (Script.mk s.hex)

/-- `GetRawTransactionResultVoutScriptPubKey` from the source (the
opaque `Address` domain type is carried as its string). -/
structure GetRawTransactionResultVoutScriptPubKey where
  asm : String
  hex : List Nat
  req_sigs : Option Nat
  type_ : Option ScriptPubkeyType
  addresses : Option (List String)
deriving DecidableEq

/-- `GetRawTransactionResultVoutScriptPubKey::script` from the source:
`Ok(Script::from(self.hex.clone()))`. -/
def GetRawTransactionResultVoutScriptPubKey.script
    (s : GetRawTransactionResultVoutScriptPubKey) : Except String Script :=
  Except.ok (Script.mk s.hex)

/-- `GetRawTransactionResultVin` from the source (the opaque `Txid`
domain type is carried as its hash string). -/
structure GetRawTransactionResultVin where
  sequence : Nat
  coinbase : Option (List Nat)
  txid : Option String
  vout : Option Nat
  script_sig : Option GetRawTransactionResultVinScriptSig
  txinwitness : Option (List (List Nat))
deriving DecidableEq

/-- `GetRawTransactionResultVin::is_coinbase` from the source:
`self.coinbase.is_some()`. -/
def GetRawTransactionResultVin.is_coinbase (v : GetRawTransactionResultVin) : Bool :=
  v.coinbase.isSome

/-- `GetRawTransactionResultVout` from the source (`value` in satoshi,
via the BTC-amount adapter). -/
structure GetRawTransactionResultVout where
  value : Int
  n : Nat
  script_pub_key : GetRawTransactionResultVoutScriptPubKey
deriving DecidableEq

/-- `GetRawTransactionResult` from the source (hash domain types carried
as strings). -/
structure GetRawTransactionResult where
  in_active_chain : Option Bool
  hex : List Nat
  txid : String
  hash : String
  size : Nat
  vsize : Nat
  version : Nat
  locktime : Nat
  vin : List GetRawTransactionResultVin
  vout : List GetRawTransactionResultVout
  blockhash : Option String
  confirmations : Option Nat
  time : Option Nat
  blocktime : Option Nat
deriving DecidableEq

/-- `GetRawTransactionResult::is_coinbase` from the source:
`self.vin.len() == 1 && self.vin[0].is_coinbase()` (the index is only
reached when the length check already passed). -/
def GetRawTransactionResult.is_coinbase (r : GetRawTransactionResult) : Bool :=
  r.vin.length == 1 &&
    (match r.vin with
     | v :: _ => v.is_coinbase
     | [] => false)

/-- `ImportMultiRequestScriptPubkey` from the source: the polymorphic
`script_pub_key` argument (the opaque `Address` is carried as its
string). -/
inductive ImportMultiRequestScriptPubkey where
  | Address (addr : String)
  | Script (script : List Nat)
deriving DecidableEq

/-- The manual `Serialize` impl of `ImportMultiRequestScriptPubkey` from
the source: the `Address` variant serializes the one-field helper struct
`Tmp { address }`; the `Script` variant serializes the script bytes as a
bare hex string. -/
def ImportMultiRequestScriptPubkey.serialize :
    ImportMultiRequestScriptPubkey → Json
  | ImportMultiRequestScriptPubkey.Address addr => Json.obj [("address", Json.str addr)]
  | ImportMultiRequestScriptPubkey.Script s => Json.str (to_hex s)

/-- `ListUnspentQueryOptions` from the source: three optional amounts
(serialized through the optional BTC adapter, no `skip_serializing_if`)
and an optional count with `skip_serializing_if = "Option::is_none"`. -/
structure ListUnspentQueryOptions where
  minimum_amount : Option Int
  maximum_amount : Option Int
  maximum_count : Option Nat
  maximum_sum_amount : Option Int
deriving DecidableEq

/-- The derived `Serialize` of `ListUnspentQueryOptions` from the
source: fields in declaration order, keys in camelCase per
`rename_all`; `maximum_count` is skipped when `None`, the three amount
options always emit their key (with `null` when absent). -/
def ListUnspentQueryOptions.serialize (q : ListUnspentQueryOptions) : Json :=
  Json.obj
    ([("minimumAmount", as_btc.opt.serialize q.minimum_amount),
      ("maximumAmount", as_btc.opt.serialize q.maximum_amount)]
     ++ (match q.maximum_count with
         | none => []
         | some n => [("maximumCount", Json.num (natToDec n))])
     ++ [("maximumSumAmount", as_btc.opt.serialize q.maximum_sum_amount)])

/-- Decoding of a required integer field: the key must be present and a
JSON number with an integral decimal text. -/
def decodeNatField (fields : List (String × Json)) (key : String) :
    Except String Nat :=
  match lookupField fields key with
  | some (Json.num s) =>
    match digitsVal s.data with
    | some n => Except.ok n
    | none => Except.error "invalid number"
  | _ => Except.error "missing or invalid field"

/-- Decoding of a plain `Option<integer>` field: a missing key and JSON
`null` both give `None` (the `Option` deserializer, unlike the
`with`-adapters, accepts `null`). -/
def decodeOptNatField (fields : List (String × Json)) (key : String) :
    Except String (Option Nat) :=
  match lookupField fields key with
  | none => Except.ok none
  | some Json.null => Except.ok none
  | some (Json.num s) =>
    match digitsVal s.data with
    | some n => Except.ok (some n)
    | none => Except.error "invalid number"
  | some _ => Except.error "invalid field"

/-- Encoding of a plain `Option<integer>` field value: `None` is JSON
`null`. -/
def optNatJson (a : Option Nat) : Json :=
  match a with
  | none => Json.null
  | some n => Json.num (natToDec n)

/-- Decoding of a required string field. -/
def decodeStrField (fields : List (String × Json)) (key : String) :
    Except String String :=
  match lookupField fields key with
  | some (Json.str s) => Except.ok s
  | _ => Except.error "missing or invalid field"

/-- Decoding of a raw numeric field kept as its JSON number text (the
model of an `f64` field such as `networkhashps`). -/
def decodeRawNumField (fields : List (String × Json)) (key : String) :
    Except String String :=
  match lookupField fields key with
  | some (Json.num s) => Except.ok s
  | _ => Except.error "missing or invalid field"

/-- Decoding of the `difficulty` field
(`#[serde(deserialize_with = "deserialize_difficulty")]`): the value
must be a JSON number, whose text goes through
`deserialize_difficulty`. -/
def decodeDifficultyField (fields : List (String × Json)) (key : String) :
    Except String Nat :=
  match lookupField fields key with
  | some (Json.num s) => deserialize_difficulty s
  | _ => Except.error "missing or invalid field"

/-- Modelled from the spec: the serializer of the big-integer
`difficulty` value (spec 4.1.5): emit the big integer as a JSON number
(no decimal point).  The source derives `Serialize` with no
`serialize_with` override, delegating to the big-integer library. -/
def encodeDifficulty (n : Nat) : Json :=
  Json.num (natToDec n)

/-- `GetMiningInfoResult` from the source: `difficulty` as a big
integer; `networkhashps` is an `f64` kept as its raw number text in this
model; `currentblockweight`/`currentblocktx` are plain optional
integers. -/
structure GetMiningInfoResult where
  blocks : Nat
  currentblockweight : Option Nat
  currentblocktx : Option Nat
  difficulty : Nat
  networkhashps : String
  pooledtx : Nat
  chain : String
  warnings : String
deriving DecidableEq

/-- The derived `Serialize` of `GetMiningInfoResult`: all fields in
declaration order (`rename_all = "camelCase"` leaves these lowercase
names unchanged); `difficulty` through the big-integer serializer. -/
def GetMiningInfoResult.serialize (r : GetMiningInfoResult) : Json :=
  Json.obj
    [("blocks", Json.num (natToDec r.blocks)),
     ("currentblockweight", optNatJson r.currentblockweight),
     ("currentblocktx", optNatJson r.currentblocktx),
     ("difficulty", encodeDifficulty r.difficulty),
     ("networkhashps", Json.num r.networkhashps),
     ("pooledtx", Json.num (natToDec r.pooledtx)),
     ("chain", Json.str r.chain),
     ("warnings", Json.str r.warnings)]

/-- The derived `Deserialize` of `GetMiningInfoResult`: field lookup by
key; `difficulty` through `deserialize_difficulty`. -/
def GetMiningInfoResult.deserialize (v : Json) :
    Except String GetMiningInfoResult :=
  match v with
  | Json.obj fields => do
    let blocks ← decodeNatField fields "blocks"
    let cbw ← decodeOptNatField fields "currentblockweight"
    let cbt ← decodeOptNatField fields "currentblocktx"
    let difficulty ← decodeDifficultyField fields "difficulty"
    let nhps ← decodeRawNumField fields "networkhashps"
    let pooledtx ← decodeNatField fields "pooledtx"
    let chain ← decodeStrField fields "chain"
    let warnings ← decodeStrField fields "warnings"
    pure (GetMiningInfoResult.mk blocks cbw cbt difficulty nhps pooledtx chain warnings)
  | _ => Except.error "expected an object"

theorem digitVal_digitChar (d : Nat) (h : d < 10) : digitVal (digitChar d) = some d := by
  interval_cases d <;> decide

theorem digitVal_digitChar_isSome (d : Nat) : (digitVal (digitChar d)).isSome = true := by
  unfold digitChar
  split <;> decide

theorem digitsValAux_append (acc : Nat) (xs ys : List Char) :
    digitsValAux acc (xs ++ ys) =
      match digitsValAux acc xs with
      | some m => digitsValAux m ys
      | none => none := by
  induction xs generalizing acc with
  | nil => rfl
  | cons c cs ih =>
    simp only [List.cons_append, digitsValAux]
    cases digitVal c with
    | some d => exact ih _
    | none => rfl

theorem natToDecList_ne_nil (n : Nat) : natToDecList n ≠ [] := by
  rw [natToDecList]
  split
  · simp
  · simp

theorem digitsValAux_natToDecList (n : Nat) : ∀ acc,
    digitsValAux acc (natToDecList n) =
      some (acc * 10 ^ (natToDecList n).length + n) := by
  induction n using natToDecList.induct with
  | case1 n h =>
    intro acc
    rw [natToDecList, dif_pos h]
    simp only [digitsValAux, digitVal_digitChar n h, List.length_singleton]
    ring_nf
  | case2 n h ih =>
    intro acc
    rw [natToDecList, dif_neg h]
    rw [digitsValAux_append]
    rw [ih acc]
    simp only [digitsValAux, digitVal_digitChar (n % 10) (Nat.mod_lt n (by norm_num))]
    rw [List.length_append, List.length_singleton, pow_succ]
    congr 1
    rw [← mul_assoc]
    generalize acc * 10 ^ (natToDecList (n / 10)).length = t
    omega

theorem digitsVal_of_ne_nil (cs : List Char) (h : cs ≠ []) :
    digitsVal cs = digitsValAux 0 cs := by
  cases cs with
  | nil => exact absurd rfl h
  | cons c cs => rfl

theorem digitsVal_natToDecList (n : Nat) : digitsVal (natToDecList n) = some n := by
  rw [digitsVal_of_ne_nil _ (natToDecList_ne_nil n), digitsValAux_natToDecList n 0]
  simp

theorem mem_natToDecList (n : Nat) (c : Char) (hc : c ∈ natToDecList n) :
    ∃ d, c = digitChar d := by
  induction n using natToDecList.induct with
  | case1 n h =>
    rw [natToDecList, dif_pos h] at hc
    simp only [List.mem_singleton] at hc
    exact ⟨n, hc⟩
  | case2 n h ih =>
    rw [natToDecList, dif_neg h] at hc
    rcases List.mem_append.1 hc with h1 | h2
    · exact ih h1
    · simp only [List.mem_singleton] at h2
      exact ⟨n % 10, h2⟩

theorem natToDecList_no_dot (n : Nat) (c : Char) (hc : c ∈ natToDecList n) :
    c ≠ '.' := by
  obtain ⟨d, rfl⟩ := mem_natToDecList n c hc
  have h := digitVal_digitChar_isSome d
  intro heq
  rw [heq] at h
  exact absurd h (by decide)

theorem natToDecList_no_dash (n : Nat) (c : Char) (hc : c ∈ natToDecList n) :
    c ≠ '-' := by
  obtain ⟨d, rfl⟩ := mem_natToDecList n c hc
  have h := digitVal_digitChar_isSome d
  intro heq
  rw [heq] at h
  exact absurd h (by decide)

theorem splitOnDot_no_dot (xs : List Char) (h : ∀ c ∈ xs, c ≠ '.') :
    splitOnDot xs = (xs, none) := by
  induction xs with
  | nil => rfl
  | cons c cs ih =>
    simp only [splitOnDot]
    rw [if_neg (h c (List.mem_cons_self c cs))]
    rw [ih (fun d hd => h d (List.mem_cons_of_mem c hd))]

theorem splitOnDot_append_dot (xs ys : List Char) (h : ∀ c ∈ xs, c ≠ '.') :
    splitOnDot (xs ++ '.' :: ys) = (xs, some ys) := by
  induction xs with
  | nil => simp [splitOnDot]
  | cons c cs ih =>
    simp only [List.cons_append, splitOnDot]
    rw [if_neg (h c (List.mem_cons_self c cs))]
    simp only [List.append_eq]
    rw [ih (fun d hd => h d (List.mem_cons_of_mem c hd))]

theorem digitsValAux_replicate_zero (k : Nat) : ∀ acc,
    digitsValAux acc (List.replicate k '0') = some (acc * 10 ^ k) := by
  induction k with
  | zero => intro acc; simp [digitsValAux]
  | succ k ih =>
    intro acc
    have h0 : digitVal '0' = some 0 := by decide
    rw [List.replicate_succ]
    simp only [digitsValAux, h0]
    rw [ih (acc * 10 + 0)]
    congr 1
    ring

theorem natToDecList_length_le (n : Nat) : ∀ k, 1 ≤ k → n < 10 ^ k →
    (natToDecList n).length ≤ k := by
  induction n using natToDecList.induct with
  | case1 n h =>
    intro k hk _
    rw [natToDecList, dif_pos h]
    simpa using hk
  | case2 n h ih =>
    intro k hk hn
    rw [natToDecList, dif_neg h]
    rw [List.length_append, List.length_singleton]
    have hk2 : 2 ≤ k := by
      by_contra hlt
      push_neg at hlt
      interval_cases k
      · exact h (by simpa using hn)
    have hdiv : n / 10 < 10 ^ (k - 1) := by
      rw [Nat.div_lt_iff_lt_mul (by norm_num : (0:ℕ) < 10)]
      calc n < 10 ^ k := hn
        _ = 10 ^ (k - 1) * 10 := by
            rw [← pow_succ]
            congr 1
            omega
    have := ih (k - 1) (by omega) hdiv
    omega

theorem padZeros_length (w : Nat) (cs : List Char) (h : cs.length ≤ w) :
    (padZeros w cs).length = w := by
  simp [padZeros]
  omega

theorem digitsVal_padZeros_natToDecList (w m : Nat) :
    digitsVal (padZeros w (natToDecList m)) = some m := by
  have hne : padZeros w (natToDecList m) ≠ [] := by
    simp only [padZeros]
    intro h
    rcases List.append_eq_nil.1 h with ⟨_, h2⟩
    exact natToDecList_ne_nil m h2
  rw [digitsVal_of_ne_nil _ hne]
  simp only [padZeros]
  rw [digitsValAux_append]
  rw [digitsValAux_replicate_zero _ 0]
  norm_num
  rw [digitsValAux_natToDecList m 0]
  simp

theorem padZeros_natToDecList_no_dot (w m : Nat) (c : Char)
    (hc : c ∈ padZeros w (natToDecList m)) : c ≠ '.' := by
  simp only [padZeros] at hc
  rcases List.mem_append.1 hc with h1 | h2
  · have := List.eq_of_mem_replicate h1
    subst this
    decide
  · exact natToDecList_no_dot m c h2

theorem toNat_ofNat_valid (m : Nat) (h : m.isValidChar) :
    (Char.ofNat m).toNat = m := by
  rw [Char.ofNat, dif_pos h]
  rfl

theorem hexDigitValNat_add32 (m : Nat) (h1 : 65 ≤ m) (h2 : m ≤ 90) :
    hexDigitValNat (m + 32) = hexDigitValNat m := by
  unfold hexDigitValNat
  rw [if_neg (by omega : ¬(48 ≤ m + 32 ∧ m + 32 ≤ 57)),
      if_neg (by omega : ¬(48 ≤ m ∧ m ≤ 57))]
  by_cases hA : m ≤ 70
  · rw [if_pos (by omega : 97 ≤ m + 32 ∧ m + 32 ≤ 102),
        if_neg (by omega : ¬(97 ≤ m ∧ m ≤ 102)),
        if_pos (by omega : 65 ≤ m ∧ m ≤ 70)]
    congr 1
  · rw [if_neg (by omega : ¬(97 ≤ m + 32 ∧ m + 32 ≤ 102)),
        if_neg (by omega : ¬(65 ≤ m + 32 ∧ m + 32 ≤ 70)),
        if_neg (by omega : ¬(97 ≤ m ∧ m ≤ 102)),
        if_neg (by omega : ¬(65 ≤ m ∧ m ≤ 70))]

theorem hexDigitVal_lowerChar (c : Char) :
    hexDigitVal (lowerChar c) = hexDigitVal c := by
  unfold lowerChar
  by_cases h : 65 ≤ c.toNat ∧ c.toNat ≤ 90
  · rw [if_pos h]
    show hexDigitValNat (Char.ofNat (c.toNat + 32)).toNat = hexDigitValNat c.toNat
    rw [toNat_ofNat_valid _ (Or.inl (by omega))]
    exact hexDigitValNat_add32 _ h.1 h.2
  · rw [if_neg h]

theorem hexPairsToBytes_map_lowerChar (cs : List Char) :
    hexPairsToBytes (cs.map lowerChar) = hexPairsToBytes cs := by
  induction cs using hexPairsToBytes.induct with
  | case1 => rfl
  | case2 c => rfl
  | case3 c1 c2 rest h l tail hd1 hd2 hrec ih =>
    simp only [List.map_cons, hexPairsToBytes, hexDigitVal_lowerChar, ih]
  | case4 c1 c2 rest hne ih =>
    simp only [List.map_cons, hexPairsToBytes, hexDigitVal_lowerChar, ih]

theorem hexDigitChar_isLower (d : Nat) : IsLowerHexChar (hexDigitChar d) := by
  unfold hexDigitChar
  split <;> first | exact Or.inl (by decide) | exact Or.inr (by decide)

theorem to_hex_chars (bs : List Nat) (c : Char) (hc : c ∈ (to_hex bs).data) :
    IsLowerHexChar c := by
  have hc' : c ∈ (bs.map byteToHex).flatten := hc
  rcases List.mem_flatten.1 hc' with ⟨l, hl, hcl⟩
  rcases List.mem_map.1 hl with ⟨b, _hb, rfl⟩
  rcases List.mem_cons.1 hcl with rfl | h2
  · exact hexDigitChar_isLower _
  · rcases List.mem_singleton.1 h2 with rfl
    exact hexDigitChar_isLower _

theorem to_hex_data_length (bs : List Nat) :
    ((bs.map byteToHex).flatten).length = 2 * bs.length := by
  induction bs with
  | nil => rfl
  | cons b t ih =>
    simp only [List.map_cons, List.flatten_cons, List.length_append, ih,
      byteToHex, List.length_cons, List.length_singleton, List.length_nil]
    omega

theorem to_hex_length (bs : List Nat) : (to_hex bs).length = 2 * bs.length :=
  to_hex_data_length bs

theorem from_hex_lowerStr (s : String) : from_hex (lowerStr s) = from_hex s := by
  unfold from_hex
  rw [show (lowerStr s).data = s.data.map lowerChar from rfl]
  rw [hexPairsToBytes_map_lowerChar]

theorem digitsValAux_ne_dot (cs : List Char) : ∀ acc n,
    digitsValAux acc cs = some n → ∀ c ∈ cs, c ≠ '.' := by
  induction cs with
  | nil =>
    intro acc n _ c hc
    cases hc
  | cons c cs ih =>
    intro acc n h d hd
    simp only [digitsValAux] at h
    cases hdv : digitVal c with
    | none => rw [hdv] at h; cases h
    | some v =>
      rw [hdv] at h
      rcases List.mem_cons.1 hd with rfl | hmem
      · intro heq
        rw [heq] at hdv
        rw [show digitVal '.' = none from by decide] at hdv
        cases hdv
      · exact ih _ _ h d hmem

theorem digitsVal_ne_dot (cs : List Char) (n : Nat)
    (h : digitsVal cs = some n) : ∀ c ∈ cs, c ≠ '.' := by
  cases cs with
  | nil => cases h
  | cons c cs => exact digitsValAux_ne_dot _ _ _ h

theorem deserialize_difficulty_natToDec (n : Nat) :
    deserialize_difficulty (natToDec n) = Except.ok n := by
  simp only [deserialize_difficulty, natToDec]
  rw [splitOnDot_no_dot _ (natToDecList_no_dot n)]
  rw [digitsVal_natToDecList]

theorem btcSatsOfParts_pad (ip m : Nat) (hm : m < 10 ^ 8) :
    btcSatsOfParts ip (some (padZeros 8 (natToDecList m))) =
      Except.ok (ip * 100000000 + m) := by
  have hlen : (padZeros 8 (natToDecList m)).length = 8 :=
    padZeros_length _ _ (natToDecList_length_le _ 8 (by norm_num) hm)
  simp only [btcSatsOfParts, digitsVal_padZeros_natToDecList, hlen]
  rw [if_pos (by norm_num)]
  norm_num

theorem decodeBtc_encodeBtc (s : Int) (hs : s.natAbs ≤ 21 * 10 ^ 14) :
    decodeBtc (encodeBtc s) = Except.ok s := by
  have hs' : s.natAbs ≤ 2100000000000000 := by
    calc s.natAbs ≤ 21 * 10 ^ 14 := hs
      _ = 2100000000000000 := by norm_num
  have hmodlt : s.natAbs % 100000000 < 10 ^ 8 :=
    Nat.lt_of_lt_of_le (Nat.mod_lt _ (by norm_num)) (by norm_num)
  have hsplit :
      splitOnDot (natToDecList (s.natAbs / 100000000) ++ '.' ::
        padZeros 8 (natToDecList (s.natAbs % 100000000))) =
      (natToDecList (s.natAbs / 100000000),
        some (padZeros 8 (natToDecList (s.natAbs % 100000000)))) :=
    splitOnDot_append_dot _ _ (natToDecList_no_dot _)
  have hsats : btcSatsOfParts (s.natAbs / 100000000)
      (some (padZeros 8 (natToDecList (s.natAbs % 100000000)))) =
      Except.ok s.natAbs := by
    rw [btcSatsOfParts_pad _ _ hmodlt]
    congr 1
    omega
  by_cases hneg : s < 0
  · have hdata : (encodeBtc s).data =
        '-' :: (natToDecList (s.natAbs / 100000000) ++ '.' ::
          padZeros 8 (natToDecList (s.natAbs % 100000000))) := by
      simp only [encodeBtc]
      rw [if_pos hneg]
    have hstrip : stripSign (encodeBtc s).data =
        (true, natToDecList (s.natAbs / 100000000) ++ '.' ::
          padZeros 8 (natToDecList (s.natAbs % 100000000))) := by
      rw [hdata]
      simp [stripSign]
    unfold decodeBtc
    simp only [hstrip, hsplit, digitsVal_natToDecList, hsats]
    show btcRangeCheck (-(s.natAbs : Int)) = Except.ok s
    unfold btcRangeCheck
    rw [if_neg (by omega :
      ¬(-(s.natAbs : Int) < -9223372036854775808 ∨
        (9223372036854775808 : Int) ≤ -(s.natAbs : Int)))]
    congr 1
    omega
  · obtain ⟨c, cs, heq⟩ : ∃ c cs, natToDecList (s.natAbs / 100000000) = c :: cs := by
      cases h : natToDecList (s.natAbs / 100000000) with
      | nil => exact absurd h (natToDecList_ne_nil _)
      | cons c cs => exact ⟨c, cs, rfl⟩
    have hcndash : c ≠ '-' :=
      natToDecList_no_dash _ c (heq ▸ List.mem_cons_self c cs)
    have hdata : (encodeBtc s).data =
        natToDecList (s.natAbs / 100000000) ++ '.' ::
          padZeros 8 (natToDecList (s.natAbs % 100000000)) := by
      simp only [encodeBtc]
      rw [if_neg hneg]
    have hstrip : stripSign (encodeBtc s).data =
        (false, natToDecList (s.natAbs / 100000000) ++ '.' ::
          padZeros 8 (natToDecList (s.natAbs % 100000000))) := by
      rw [hdata, heq, List.cons_append]
      simp only [stripSign]
      rw [if_neg hcndash]
    unfold decodeBtc
    simp only [hstrip, hsplit, digitsVal_natToDecList, hsats]
    show btcRangeCheck ((s.natAbs : Int)) = Except.ok s
    unfold btcRangeCheck
    rw [if_neg (by omega :
      ¬((s.natAbs : Int) < -9223372036854775808 ∨
        (9223372036854775808 : Int) ≤ (s.natAbs : Int)))]
    congr 1
    omega

@[simp] theorem digitsVal_natToDec_data (n : Nat) :
    digitsVal (natToDec n).data = some n :=
  digitsVal_natToDecList n

@[simp] theorem deserialize_difficulty_natToDec_simp (n : Nat) :
    deserialize_difficulty (natToDec n) = Except.ok n :=
  deserialize_difficulty_natToDec n

theorem mining_info_roundtrip (r : GetMiningInfoResult) :
    GetMiningInfoResult.deserialize (GetMiningInfoResult.serialize r) = Except.ok r := by
  obtain ⟨b, cbw, cbt, d, nh, p, ch, w⟩ := r
  cases cbw <;> cases cbt <;>
    simp [GetMiningInfoResult.serialize, GetMiningInfoResult.deserialize,
      decodeNatField, decodeOptNatField, optNatJson, decodeStrField,
      decodeRawNumField, decodeDifficultyField, lookupField, encodeDifficulty,
      bind, Except.bind, pure, Except.pure]

/-- C1: for every integer number of satoshis s with |s| ≤ 21·10^14,
encoding s through the BTC-as-float amount adapter and decoding the
resulting JSON number back yields exactly s; in particular the JSON
number 1.00000000 decodes to exactly 10^8 satoshis and -0.00613580 to
signed -613580 satoshis. -/
theorem C1_amount_precision :
    (∀ s : Int, s.natAbs ≤ 21 * 10 ^ 14 →
      as_btc.deserialize (as_btc.serialize s) = Except.ok s) ∧
    as_btc.deserialize (Json.num "1.00000000") = Except.ok (10 ^ 8) ∧
    as_btc.deserialize (Json.num "-0.00613580") = Except.ok (-613580) := by
  refine ⟨fun s hs => ?_, by norm_num; rfl, rfl⟩
  show decodeBtc (encodeBtc s) = Except.ok s
  exact decodeBtc_encodeBtc s hs

/-- Witness for C1: the round trip applied at the concrete satoshi
count -613580. -/
theorem C1_amount_precision_witness :
    ((-613580 : Int)).natAbs ≤ 21 * 10 ^ 14 ∧
    as_btc.deserialize (as_btc.serialize (-613580)) = Except.ok (-613580) :=
  ⟨by norm_num, C1_amount_precision.1 (-613580) (by norm_num)⟩

/-- C2 counterexample: for the optional hex field decoder
(serde default + serde_hex::opt), decoding an object whose key is set to
JSON null does NOT succeed with the absent value: it is a type error
(the adapter deserializes a String first), while the object without the
key decodes to the absent value.  The claim that both succeed and agree
is therefore false on this concrete input. -/
theorem C2_null_not_absent_counterexample :
    decodeOptHexField [("versionHex", Json.null)] "versionHex" =
      Except.error "expected a string" ∧
    decodeOptHexField [] "versionHex" = Except.ok none ∧
    decodeOptHexField [("versionHex", Json.null)] "versionHex" ≠
      decodeOptHexField [] "versionHex" := by
  refine ⟨rfl, rfl, ?_⟩
  intro h
  have h1 : decodeOptHexField [("versionHex", Json.null)] "versionHex" =
      Except.error "expected a string" := rfl
  have h2 : decodeOptHexField [] "versionHex" = Except.ok none := rfl
  rw [h1, h2] at h
  exact Except.noConfusion h

/-- C2 (amended): for every optional hex-bytes field, decoding an object
in which the key is absent succeeds with the absent value, but decoding
the same object with the key set to JSON null fails with a type error
(null is not treated as absent); a present empty string decodes to a
present empty byte sequence. -/
theorem C2_absent_vs_null_amended (fields : List (String × Json)) (key : String) :
    (lookupField fields key = none → decodeOptHexField fields key = Except.ok none) ∧
    (lookupField fields key = some Json.null →
      decodeOptHexField fields key = Except.error "expected a string") ∧
    (lookupField fields key = some (Json.str "") →
      decodeOptHexField fields key = Except.ok (some [])) := by
  refine ⟨fun h => ?_, fun h => ?_, fun h => ?_⟩ <;>
    simp [decodeOptHexField, h, serde_hex.opt.deserialize, deserializeString, from_hex,
      hexPairsToBytes]

/-- Witness for C2 (amended) at the concrete object with versionHex
set to null, and at the empty object. -/
theorem C2_absent_vs_null_amended_witness :
    (lookupField [("versionHex", Json.null)] "versionHex" = some Json.null ∧
     decodeOptHexField [("versionHex", Json.null)] "versionHex" =
       Except.error "expected a string") ∧
    (lookupField ([] : List (String × Json)) "versionHex" = none ∧
     decodeOptHexField [] "versionHex" = Except.ok none) :=
  ⟨⟨rfl, (C2_absent_vs_null_amended [("versionHex", Json.null)] "versionHex").2.1 rfl⟩,
   ⟨rfl, (C2_absent_vs_null_amended [] "versionHex").1 rfl⟩⟩

/-- C3 counterexample: encoding ListUnspentQueryOptions with every
optional field absent does not omit the amount keys: the three amount
options (which use the optional-amount adapter without
skip_serializing_if) are emitted with value JSON null.  Only
maximum_count, which carries skip_serializing_if, is omitted.  The claim
that every absent optional field is omitted and null is never emitted is
therefore false on this concrete record. -/
theorem C3_null_emitted_counterexample :
    ListUnspentQueryOptions.serialize
      (ListUnspentQueryOptions.mk none none none none) =
      Json.obj [("minimumAmount", Json.null), ("maximumAmount", Json.null),
        ("maximumSumAmount", Json.null)] ∧
    (ListUnspentQueryOptions.serialize
      (ListUnspentQueryOptions.mk none none none none)).lookupKey "minimumAmount" =
      some Json.null :=
  ⟨rfl, rfl⟩

/-- C3 (amended): fields annotated skip_serializing_if (such as
maximum_count) omit their key when absent; optional fields serialized
through the opt adapters without that annotation (the three amount
options of ListUnspentQueryOptions, and likewise the optional hex
fields) emit their key with value JSON null when absent. -/
theorem C3_absent_keys_amended (q : ListUnspentQueryOptions) :
    (q.minimum_amount = none →
      q.serialize.lookupKey "minimumAmount" = some Json.null) ∧
    (∀ a, q.minimum_amount = some a →
      q.serialize.lookupKey "minimumAmount" = some (Json.num (encodeBtc a))) ∧
    (q.maximum_count = none → q.serialize.lookupKey "maximumCount" = none) ∧
    (∀ n, q.maximum_count = some n →
      q.serialize.lookupKey "maximumCount" = some (Json.num (natToDec n))) := by
  obtain ⟨ma, mb, mc, md⟩ := q
  refine ⟨fun h => ?_, fun a h => ?_, fun h => ?_, fun n h => ?_⟩
  · subst h
    cases mc <;>
      simp [ListUnspentQueryOptions.serialize, Json.lookupKey, lookupField,
        as_btc.opt.serialize]
  · subst h
    cases mc <;>
      simp [ListUnspentQueryOptions.serialize, Json.lookupKey, lookupField,
        as_btc.opt.serialize]
  · subst h
    simp [ListUnspentQueryOptions.serialize, Json.lookupKey, lookupField,
      as_btc.opt.serialize]
  · subst h
    simp [ListUnspentQueryOptions.serialize, Json.lookupKey, lookupField,
      as_btc.opt.serialize]

/-- Witness for C3 (amended) at the all-absent record and at a record
with maximum_count set. -/
theorem C3_absent_keys_amended_witness :
    ((ListUnspentQueryOptions.mk none none none none).serialize.lookupKey
        "minimumAmount" = some Json.null) ∧
    ((ListUnspentQueryOptions.mk none none none none).serialize.lookupKey
        "maximumCount" = none) ∧
    ((ListUnspentQueryOptions.mk none none (some 5) none).serialize.lookupKey
        "maximumCount" = some (Json.num (natToDec 5))) :=
  ⟨(C3_absent_keys_amended (ListUnspentQueryOptions.mk none none none none)).1 rfl,
   (C3_absent_keys_amended (ListUnspentQueryOptions.mk none none none none)).2.2.1 rfl,
   (C3_absent_keys_amended (ListUnspentQueryOptions.mk none none (some 5) none)).2.2.2 5 rfl⟩

/-- C4: for every non-negative numeric input X.Y (X a non-empty decimal
digit string, Y arbitrary), the difficulty decoder returns the integer
value of X, i.e. the floor of X.Y (the fractional part is discarded);
and whenever the part before the first dot does not parse as a big
integer it fails with the message "error parsing difficulty: " followed
by the input. -/
theorem C4_difficulty_truncation :
    (∀ (X Y : List Char) (n : Nat), digitsVal X = some n →
      deserialize_difficulty (String.mk (X ++ '.' :: Y)) = Except.ok n) ∧
    (∀ s : String, digitsVal (splitOnDot s.data).1 = none →
      deserialize_difficulty s = Except.error ("error parsing difficulty: " ++ s)) := by
  constructor
  · intro X Y n h
    simp only [deserialize_difficulty]
    rw [splitOnDot_append_dot X Y (digitsVal_ne_dot X n h)]
    rw [h]
  · intro s h
    simp only [deserialize_difficulty]
    rw [h]

/-- Witness for C4 at the concrete inputs 9064159826491.41 (truncates to
9064159826491) and -1 (fails with the formatted message). -/
theorem C4_difficulty_truncation_witness :
    digitsVal "9064159826491".data = some 9064159826491 ∧
    deserialize_difficulty (String.mk ("9064159826491".data ++ '.' :: "41".data)) =
      Except.ok 9064159826491 ∧
    deserialize_difficulty "-1" = Except.error ("error parsing difficulty: " ++ "-1") :=
  ⟨rfl, C4_difficulty_truncation.1 "9064159826491".data "41".data 9064159826491 rfl,
   C4_difficulty_truncation.2 "-1" rfl⟩

/-- C5: encoding a record with a difficulty field emits the difficulty
big integer as a plain JSON number whose text contains no decimal
point, and re-encoding a decoded GetMiningInfoResult record and
decoding it again yields an equal record. -/
theorem C5_difficulty_encode_roundtrip (r : GetMiningInfoResult) :
    r.serialize.lookupKey "difficulty" = some (Json.num (natToDec r.difficulty)) ∧
    (∀ c ∈ (natToDec r.difficulty).data, c ≠ '.') ∧
    GetMiningInfoResult.deserialize r.serialize = Except.ok r :=
  ⟨rfl, fun c hc => natToDecList_no_dot r.difficulty c hc, mining_info_roundtrip r⟩

/-- C6: an input is a coinbase input exactly when its coinbase field is
present, and a raw-transaction result is a coinbase transaction exactly
when its input list consists of exactly one input whose coinbase field
is present. -/
theorem C6_is_coinbase_spec :
    (∀ v : GetRawTransactionResultVin,
      v.is_coinbase = true ↔ v.coinbase ≠ none) ∧
    (∀ r : GetRawTransactionResult,
      r.is_coinbase = true ↔ ∃ v, r.vin = [v] ∧ v.coinbase ≠ none) := by
  constructor
  · intro v
    unfold GetRawTransactionResultVin.is_coinbase
    cases v.coinbase <;> simp
  · intro r
    unfold GetRawTransactionResult.is_coinbase
    cases hv : r.vin with
    | nil => simp
    | cons a t =>
      cases t with
      | nil =>
        simp [GetRawTransactionResultVin.is_coinbase, Option.isSome_iff_ne_none]
      | cons b t2 =>
        simp

/-- Witness for C5 at a concrete record (difficulty 9064159826491). -/
theorem C5_difficulty_encode_roundtrip_witness :
    (GetMiningInfoResult.mk 585966 none none 9064159826491
        "5.276674407862246e19" 48870 "main" "").serialize.lookupKey "difficulty" =
      some (Json.num (natToDec 9064159826491)) ∧
    GetMiningInfoResult.deserialize
        (GetMiningInfoResult.mk 585966 none none 9064159826491
          "5.276674407862246e19" 48870 "main" "").serialize =
      Except.ok (GetMiningInfoResult.mk 585966 none none 9064159826491
        "5.276674407862246e19" 48870 "main" "") :=
  ⟨(C5_difficulty_encode_roundtrip _).1, (C5_difficulty_encode_roundtrip _).2.2⟩

/-- Witness for C6 at a concrete coinbase input and the transaction
containing exactly that input. -/
theorem C6_is_coinbase_spec_witness :
    GetRawTransactionResultVin.is_coinbase
      (GetRawTransactionResultVin.mk 4294967294 (some [4, 255]) none none none none) = true ∧
    GetRawTransactionResult.is_coinbase
      (GetRawTransactionResult.mk none [] "t" "h" 100 100 2 0
        [GetRawTransactionResultVin.mk 4294967294 (some [4, 255]) none none none none]
        [] none none none none) = true :=
  ⟨(C6_is_coinbase_spec.1 _).mpr (by simp),
   (C6_is_coinbase_spec.2 _).mpr ⟨_, rfl, by simp⟩⟩

/-- C7: the polymorphic script_pub_key argument serializes, for the
Address variant, to a JSON object whose key list is exactly
["address"] mapping to the address string; and for the Script variant,
to a bare JSON string holding the lowercase hex of the script bytes. -/
theorem C7_polymorphic_script_pubkey :
    (∀ a : String,
      (ImportMultiRequestScriptPubkey.Address a).serialize.objKeys = ["address"] ∧
      (ImportMultiRequestScriptPubkey.Address a).serialize.lookupKey "address" =
        some (Json.str a)) ∧
    (∀ b : List Nat,
      (ImportMultiRequestScriptPubkey.Script b).serialize = Json.str (to_hex b) ∧
      ∀ c ∈ (to_hex b).data, IsLowerHexChar c) := by
  constructor
  · intro a
    exact ⟨rfl, rfl⟩
  · intro b
    exact ⟨rfl, fun c hc => to_hex_chars b c hc⟩

/-- C8: the hex field adapter decodes case-insensitively (decoding the
lowercase form of any string gives the same result as decoding the
string itself), and encoding any byte sequence yields a lowercase hex
string of even length (two characters per byte). -/
theorem C8_canonical_hex :
    (∀ s : String, serde_hex.deserialize (Json.str (lowerStr s)) =
      serde_hex.deserialize (Json.str s)) ∧
    (∀ b : List Nat,
      serde_hex.serialize b = Json.str (to_hex b) ∧
      (∀ c ∈ (to_hex b).data, IsLowerHexChar c) ∧
      (to_hex b).length = 2 * b.length ∧
      (to_hex b).length % 2 = 0) := by
  constructor
  · intro s
    show from_hex (lowerStr s) = from_hex s
    exact from_hex_lowerStr s
  · intro b
    refine ⟨rfl, fun c hc => to_hex_chars b c hc, to_hex_length b, ?_⟩
    rw [to_hex_length]
    omega

/-- C9: whenever deserialize_hex_array_opt succeeds, its result is the
present value (it never returns the absent value on success); in
particular the array of the strings 0102 and a1ff decodes to the
present pair of byte sequences 01 02 and a1 ff. -/
theorem C9_hex_array_present :
    (∀ (v : Json) (res : Option (List (List Nat))),
      deserialize_hex_array_opt v = Except.ok res → res ≠ none) ∧
    deserialize_hex_array_opt (Json.arr [Json.str "0102", Json.str "a1ff"]) =
      Except.ok (some [[1, 2], [161, 255]]) := by
  constructor
  · intro v res h
    cases v with
    | arr xs =>
      simp only [deserialize_hex_array_opt] at h
      cases hm : xs.mapM deserializeString with
      | error e => rw [hm] at h; exact Except.noConfusion h
      | ok strs =>
        rw [hm] at h
        dsimp only at h
        cases hm2 : strs.mapM from_hex with
        | error e => rw [hm2] at h; exact Except.noConfusion h
        | ok res2 =>
          rw [hm2] at h
          injection h with h'
          subst h'
          exact fun hn => Option.noConfusion hn
    | null => simp [deserialize_hex_array_opt] at h
    | bool x => simp [deserialize_hex_array_opt] at h
    | num x => simp [deserialize_hex_array_opt] at h
    | str x => simp [deserialize_hex_array_opt] at h
    | obj x => simp [deserialize_hex_array_opt] at h
  · rfl

/-- Witness for C9: the success hypothesis discharged at the concrete
two-element array. -/
theorem C9_hex_array_present_witness :
    deserialize_hex_array_opt (Json.arr [Json.str "0102", Json.str "a1ff"]) =
      Except.ok (some [[1, 2], [161, 255]]) ∧
    (some [[1, 2], [161, 255]] : Option (List (List Nat))) ≠ none :=
  ⟨C9_hex_array_present.2,
   C9_hex_array_present.1 (Json.arr [Json.str "0102", Json.str "a1ff"])
     (some [[1, 2], [161, 255]]) C9_hex_array_present.2⟩

/-- C10: the script accessors of the decoded scriptSig and scriptPubKey
records always return a successful result wrapping their hex bytes as a
Script; the error branch of their Result type is unreachable. -/
theorem C10_script_accessors_infallible :
    (∀ s : GetRawTransactionResultVinScriptSig,
      s.script = Except.ok (Script.mk s.hex)) ∧
    (∀ s : GetRawTransactionResultVoutScriptPubKey,
      s.script = Except.ok (Script.mk s.hex)) :=
  ⟨fun _ => rfl, fun _ => rfl⟩
